import Mathlib

/-!
# Shallow embedding of the godrop IRC client core (client.go)

This file embeds the core of the `godrop` package: the connection lifecycle
(`Close`, `IsConnected`), the read/decode path (`ReadMessage`), the
receive/dispatch loop (`Loop`) together with its keep-alive (`Pong`) and
hook-dispatch behaviour, the registration handshake (`Register` via `Nick`
and `User`), and the long-message splitter (`Message`).

Modelling decisions:

* The external frame codec (`github.com/horgh/irc`) is an external library;
  its results enter the model as oracles (`ParseResult` for decoding, error
  oracles for encoding/writing).  Its wire format for PRIVMSG frames is
  modelled from the spec as `encodedLine`.
* A message body is a byte sequence, modelled as `List Char` (one `Char` per
  byte, since Go slices the string bytewise).
* I/O is modelled by oracles: each read event of the loop carries the raw
  line, the decode outcome and (if used) the outcome of a PONG write; each
  `WriteMessage` call inside `Register` and `Message` consults an oracle
  telling whether the underlying write succeeds.
* Go's `nil`/error results are `Option String` (`none` = nil).
* An out-of-bounds slice index (a Go runtime panic) is modelled explicitly:
  `Pong` returns `none` for a frame without parameters and the loop step
  produces `StepOut.panicked` in that case.
-/

namespace Godrop

/-- An IRC protocol message as the client reads it: a command token and an
ordered parameter list.  (The external codec also carries a source prefix
string, which the client never inspects; it is omitted.) -/
structure Message where
  command : String
  params : List String
deriving DecidableEq, Repr

/-- The transport handle (`net.Conn`).  The only behaviour the claims need is
the outcome of `Close()` on it, carried as data (`none` = close succeeds). -/
structure Conn where
  closeErr : Option String
deriving DecidableEq, Repr

/-- The client state: transport handle (`conn`), buffered I/O handle (`rw`),
identity fields and the registered flag.  `conn = none` models a nil handle. -/
structure Client where
  conn : Option Conn
  rw : Option Unit
  nick : String
  name : String
  ident : String
  registered : Bool
deriving DecidableEq, Repr

/-- `Client.Close`: clears the registered flag and the buffered I/O state; if
the transport handle is present, closes it, clears it and returns the close
outcome, otherwise returns nil.  Mirrors `Close` in client.go. -/
def Client.Close (c : Client) : Client × Option String :=
  let c1 : Client := { c with registered := false, rw := none }
  match c1.conn with
  | some cn => ({ c1 with conn := none }, cn.closeErr)
  | none => (c1, none)

/-- `Client.IsConnected`: true iff the transport handle is non-nil. -/
def Client.IsConnected (c : Client) : Bool :=
  c.conn.isSome

/-- Outcome of the external `irc.ParseMessage` on one raw line: a full parse,
a partial parse that returned the `irc.ErrTruncated` sentinel alongside the
partially-decoded frame, or a failure with any other error text. -/
inductive ParseResult where
  | ok (m : Message)
  | truncated (m : Message)
  | failed (e : String)
deriving DecidableEq, Repr

/-- `Client.ReadMessage` after a successful raw-line read: a decode failure
other than the truncated sentinel yields the wrapped error
`"unable to parse message: <raw>: <err>"`; a truncated decode is tolerated and
the partial frame is returned.  Mirrors `ReadMessage` in client.go. -/
def ReadMessage (raw : String) (pr : ParseResult) : Except String Message :=
  match pr with
  | .ok m => Except.ok m
  | .truncated m => Except.ok m
  | .failed e => Except.error ("unable to parse message: " ++ raw ++ ": " ++ e)

/-- `Client.Pong`: builds the PONG reply for a PING frame, echoing the probe's
first parameter `ping.Params[0]`.  The Go code indexes `Params[0]` without a
bounds check, so a frame with an empty parameter list is a runtime panic,
modelled here as `none`. -/
def Pong (ping : Message) : Option Message :=
  match ping.params with
  | p :: _ => some { command := "PONG", params := [p] }
  | [] => none

/-- Observable actions of the loop, in order: a frame handed to
`WriteMessage` (`sent`), hook number `i` invoked with the client reference and
the decoded frame (`hookCalled`), and a close of the connection (`closed`). -/
inductive Action where
  | sent (m : Message)
  | hookCalled (i : Nat) (c : Client) (m : Message)
  | closed
deriving DecidableEq, Repr

/-- `Client.hooks`: invokes each of the `n` registered hooks, in registration
order, with the client reference and the decoded frame.  Hooks return nothing;
their invocations are recorded as trace actions.  Mirrors `hooks` in
client.go, with the process-wide `Hooks` slice abstracted by its length. -/
def Client.hooks (c : Client) (n : Nat) (m : Message) : List Action :=
  (List.range n).map (fun i => Action.hookCalled i c m)

/-- One read event consumed by the loop: either the raw-line read itself
failed, or a line was read (with its decode outcome and, should a PONG write
be attempted for it, the outcome of that write: `none` = success). -/
inductive LoopInput where
  | readFailure (e : String)
  | line (raw : String) (pr : ParseResult) (pongErr : Option String)
deriving DecidableEq, Repr

/-- Result of processing one read event: continue looping, return from the
loop with an error-or-nil, or panic (out-of-bounds parameter access). -/
inductive StepOut where
  | cont (tr : List Action) (c : Client)
  | stop (tr : List Action) (c : Client) (err : Option String)
  | panicked (tr : List Action) (c : Client)
deriving DecidableEq, Repr

/-- One iteration of `Client.Loop` in client.go: read and decode a line
(errors terminate the loop), answer PING with a PONG echoing the first
parameter (a send failure terminates the loop), on ERROR close the connection
and return the close outcome, otherwise fan the frame out to the hooks. -/
def loopStep (c : Client) (n : Nat) (inp : LoopInput) : StepOut :=
  match inp with
  | .readFailure e => .stop [] c (some e)
  | .line raw pr pongErr =>
    match ReadMessage raw pr with
    | .error e => .stop [] c (some e)
    | .ok m =>
      if m.command = "PING" then
        match Pong m with
        | none => .panicked [] c
        | some reply =>
          match pongErr with
          | some e => .stop [Action.sent reply] c (some e)
          | none =>
            if m.command = "ERROR" then
              let p := c.Close
              .stop [Action.sent reply, Action.closed] p.1 p.2
            else
              .cont (Action.sent reply :: c.hooks n m) c
      else
        if m.command = "ERROR" then
          let p := c.Close
          .stop [Action.closed] p.1 p.2
        else
          .cont (c.hooks n m) c

/-- Final status of a loop run over a finite event list: `running` means the
input was exhausted with the loop still iterating (it would block on the next
read); `done e` means the loop returned `e` (error or nil); `panicked` models
a Go runtime panic. -/
inductive LoopResult where
  | running
  | done (err : Option String)
  | panicked
deriving DecidableEq, Repr

/-- `Client.Loop` over a finite stream of read events: iterates `loopStep`,
accumulating the trace of observable actions front-to-back. -/
def Loop (c : Client) (n : Nat) : List LoopInput → List Action × Client × LoopResult
  | [] => ([], c, LoopResult.running)
  | inp :: rest =>
    match loopStep c n inp with
    | .stop tr c2 e => (tr, c2, LoopResult.done e)
    | .panicked tr c2 => (tr, c2, LoopResult.panicked)
    | .cont tr c2 =>
      let r := Loop c2 n rest
      (tr ++ r.1, r.2.1, r.2.2)

/-- `maxMessage` in `Client.Message`: the conservative wire budget. -/
def maxMessage : Nat := 412

/-- `overhead` in `Client.Message`: the framing overhead reserved out of the
budget, `len("PRIVMSG ") + len(" :") + len("\r\n")`. -/
def overhead : Nat := "PRIVMSG ".length + " :".length + "\r\n".length

/-- The chunk size `maxMessage - overhead` used by the splitting loop. -/
def chunkSize : Nat := maxMessage - overhead

/-- The PRIVMSG frame `Client.Message` builds for one piece of the body. -/
def privmsg (target : String) (piece : List Char) : Message :=
  { command := "PRIVMSG", params := [target, String.mk piece] }

/-- The successive pieces `message[i : i+maxMessage-overhead]` taken by the
splitting loop in `Client.Message`, front to back. -/
def messageChunks : List Char → List (List Char)
  | [] => []
  | a :: t => ((a :: t).take chunkSize) :: messageChunks ((a :: t).drop chunkSize)
termination_by s => s.length
decreasing_by
  have hc : chunkSize = 400 := by decide
  simp only [List.length_drop, List.length_cons, hc]
  omega

/-- The body of `Client.Message`: for each piece in order, call `WriteMessage`
with the PRIVMSG frame (the oracle `sendOk k` gives the outcome of the `k`-th
write); on a write failure the Go code does `return nil`, so no later piece is
attempted and the result is nil either way.  The returned list records every
attempted frame paired with its write outcome. -/
def messageSend (target : String) (sendOk : Nat → Bool) :
    List Char → Nat → List (Message × Bool) × Option String
  | [], _ => ([], none)
  | a :: t, k =>
    let piece := (a :: t).take chunkSize
    if sendOk k then
      let r := messageSend target sendOk ((a :: t).drop chunkSize) (k + 1)
      ((privmsg target piece, true) :: r.1, r.2)
    else
      ([(privmsg target piece, false)], none)
termination_by s _ => s.length
decreasing_by
  have hc : chunkSize = 400 := by decide
  simp only [List.length_drop, List.length_cons, hc]
  omega

/-- `Client.Message target body`: splits the body and sends the pieces.
Returns the trace of attempted PRIVMSG frames (with each write's outcome) and
the function's result, which the Go code makes nil on every path. -/
def Client.Message (_c : Client) (target : String) (body : List Char)
    (sendOk : Nat → Bool) : List (Godrop.Message × Bool) × Option String :=
  messageSend target sendOk body 0

/-- Modelled from the spec: the external Frame Codec's wire encoding of one
PRIVMSG chunk, `"PRIVMSG " + target + " :" + chunk + "\r\n"` (spec section 4.4;
the codec lives in the external `irc` library, outside this repository). -/
def encodedLine (target : String) (piece : String) : String :=
  "PRIVMSG " ++ target ++ " :" ++ piece ++ "\r\n"

/-- The NICK frame `Client.Nick` sends. -/
def nickMsg (c : Client) : Message :=
  { command := "NICK", params := [c.nick] }

/-- The USER frame `Client.User` sends. -/
def userMsg (c : Client) : Message :=
  { command := "USER", params := [c.ident, "0", "*", c.name] }

/-- `Client.Nick`: sends NICK through `WriteMessage` (outcome given by the
oracle `send`); a failure is wrapped as `"failed to send NICK: <err>"`.
Returns the attempted frames and the result. -/
def Client.Nick (c : Client) (send : Godrop.Message → Option String) :
    List Godrop.Message × Option String :=
  match send (nickMsg c) with
  | some e => ([nickMsg c], some ("failed to send NICK: " ++ e))
  | none => ([nickMsg c], none)

/-- `Client.User`: sends USER; a failure is wrapped as
`"failed to send USER: <err>"`. -/
def Client.User (c : Client) (send : Godrop.Message → Option String) :
    List Godrop.Message × Option String :=
  match send (userMsg c) with
  | some e => ([userMsg c], some ("failed to send USER: " ++ e))
  | none => ([userMsg c], none)

/-- `Client.Register`: sends NICK, and only if that succeeded sends USER;
returns the first wrapped error, if any.  Mirrors `Register` in client.go. -/
def Client.Register (c : Client) (send : Godrop.Message → Option String) :
    List Godrop.Message × Option String :=
  match c.Nick send with
  | (tr, some e) => (tr, some e)
  | (tr, none) =>
    let r := c.User send
    (tr ++ r.1, r.2)

/-- A concrete client used to instantiate theorems with hypotheses. -/
def someClient : Client :=
  { conn := some { closeErr := none }, rw := some (), nick := "bot",
    name := "realname", ident := "ident", registered := false }

/-- A concrete send oracle that fails exactly on NICK frames. -/
def regSendFail : Godrop.Message → Option String :=
  fun m => if m.command = "NICK" then some "boom" else none

/-- A 101-byte target, long enough to push an encoded line past 512 bytes. -/
def tgt101 : String := String.mk (List.replicate 101 'a')

/-- A 400-byte message body: exactly one full-sized chunk. -/
def body400 : List Char := List.replicate 400 'b'

/-- A concrete ordinary (non-PING, non-ERROR) frame. -/
def privFrame : Message := { command := "PRIVMSG", params := ["#chan", "hi"] }

theorem chunkSize_eq : chunkSize = 400 := by decide

theorem messageChunks_nil : messageChunks [] = [] := by
  simp [messageChunks]

theorem messageChunks_cons (a : Char) (t : List Char) :
    messageChunks (a :: t) =
      ((a :: t).take chunkSize) :: messageChunks ((a :: t).drop chunkSize) := by
  rw [messageChunks]

theorem messageChunks_join (s : List Char) : (messageChunks s).flatten = s := by
  induction s using messageChunks.induct with
  | case1 => simp [messageChunks]
  | case2 a t ih =>
    rw [messageChunks_cons, List.flatten_cons, ih, List.take_append_drop]

theorem messageChunks_length (s : List Char) :
    (messageChunks s).length = (s.length + chunkSize - 1) / chunkSize := by
  induction s using messageChunks.induct with
  | case1 => rw [messageChunks_nil]; rw [chunkSize_eq]; rfl
  | case2 a t ih =>
    rw [messageChunks_cons, List.length_cons, ih]
    simp only [List.length_drop, List.length_cons, chunkSize_eq]
    omega

theorem messageChunks_piece_le (s piece : List Char)
    (h : piece ∈ messageChunks s) : piece.length ≤ chunkSize := by
  induction s using messageChunks.induct with
  | case1 => rw [messageChunks_nil] at h; simp at h
  | case2 a t ih =>
    rw [messageChunks_cons] at h
    rcases List.mem_cons.mp h with h1 | h2
    · subst h1; exact List.length_take_le ..
    · exact ih h2

theorem messageSend_nil (target : String) (sendOk : Nat → Bool) (k : Nat) :
    messageSend target sendOk [] k = ([], none) := by
  simp [messageSend]

theorem messageSend_cons (target : String) (sendOk : Nat → Bool)
    (a : Char) (t : List Char) (k : Nat) :
    messageSend target sendOk (a :: t) k =
      if sendOk k then
        ((privmsg target ((a :: t).take chunkSize), true) ::
            (messageSend target sendOk ((a :: t).drop chunkSize) (k + 1)).1,
          (messageSend target sendOk ((a :: t).drop chunkSize) (k + 1)).2)
      else ([(privmsg target ((a :: t).take chunkSize), false)], none) := by
  rw [messageSend]

theorem messageSend_result_nil (target : String) (sendOk : Nat → Bool)
    (s : List Char) (k : Nat) : (messageSend target sendOk s k).2 = none := by
  induction s using messageChunks.induct generalizing k with
  | case1 => rw [messageSend_nil]
  | case2 a t ih =>
    rw [messageSend_cons]
    split
    · exact ih (k + 1)
    · rfl

theorem messageSend_allOk (target : String) (s : List Char) (k : Nat) :
    messageSend target (fun _ => true) s k
      = ((messageChunks s).map (fun p => (privmsg target p, true)), none) := by
  induction s using messageChunks.induct generalizing k with
  | case1 => rw [messageSend_nil, messageChunks_nil]; rfl
  | case2 a t ih =>
    rw [messageSend_cons, messageChunks_cons, if_pos rfl, ih (k + 1)]
    simp

theorem messageSend_mem (target : String) (sendOk : Nat → Bool)
    (s : List Char) (k : Nat) :
    ∀ fb ∈ (messageSend target sendOk s k).1,
      ∃ piece ∈ messageChunks s, fb.1 = privmsg target piece := by
  induction s using messageChunks.induct generalizing k with
  | case1 => rw [messageSend_nil]; simp
  | case2 a t ih =>
    intro fb hfb
    rw [messageSend_cons] at hfb
    rw [messageChunks_cons]
    split at hfb
    · rcases List.mem_cons.mp hfb with h1 | h2
      · exact ⟨(a :: t).take chunkSize, List.mem_cons_self .., by rw [h1]⟩
      · obtain ⟨piece, hmem, heq⟩ := ih (k + 1) fb h2
        exact ⟨piece, List.mem_cons_of_mem _ hmem, heq⟩
    · rcases List.mem_cons.mp hfb with h1 | h2
      · exact ⟨(a :: t).take chunkSize, List.mem_cons_self .., by rw [h1]⟩
      · simp at h2

theorem messageSend_firstFail (target : String) (sendOk : Nat → Bool)
    (s : List Char) (k j : Nat)
    (h1 : ∀ i, i < j → sendOk (k + i) = true) (h2 : sendOk (k + j) = false)
    (h3 : j < (messageChunks s).length) :
    (messageSend target sendOk s k).1.map Prod.fst
        = ((messageChunks s).take (j + 1)).map (privmsg target)
      ∧ (messageSend target sendOk s k).1.map Prod.snd
        = List.replicate j true ++ [false] := by
  induction s using messageChunks.induct generalizing k j with
  | case1 => rw [messageChunks_nil] at h3; simp at h3
  | case2 a t ih =>
    rw [messageChunks_cons] at h3 ⊢
    rw [messageSend_cons]
    cases j with
    | zero =>
      have hk : sendOk k = false := by simpa using h2
      rw [if_neg (by simp [hk])]
      simp
    | succ j' =>
      have hk : sendOk k = true := by simpa using h1 0 (Nat.succ_pos j')
      rw [if_pos hk]
      have h1' : ∀ i, i < j' → sendOk (k + 1 + i) = true := by
        intro i hi
        have := h1 (i + 1) (Nat.succ_lt_succ hi)
        rwa [show k + (i + 1) = k + 1 + i by omega] at this
      have h2' : sendOk (k + 1 + j') = false := by
        rwa [show k + 1 + j' = k + (j' + 1) by omega]
      have h3' : j' < (messageChunks ((a :: t).drop chunkSize)).length := by
        simp only [List.length_cons] at h3
        omega
      obtain ⟨e1, e2⟩ := ih (k + 1) j' h1' h2' h3'
      constructor
      · simp only [List.map_cons, List.take_succ_cons, e1]
      · simp only [List.map_cons, e2, List.replicate_succ, List.cons_append]

theorem messageChunks_short (s : List Char) (h0 : s ≠ [])
    (h1 : s.length ≤ chunkSize) : messageChunks s = [s] := by
  match s with
  | [] => exact absurd rfl h0
  | a :: t =>
    rw [messageChunks_cons, List.take_of_length_le h1,
      List.drop_eq_nil_of_le h1, messageChunks_nil]

theorem encodedLine_length (target piece : String) :
    (encodedLine target piece).length = target.length + piece.length + 12 := by
  have ha : ("PRIVMSG " : String).length = 8 := by decide
  have hb : (" :" : String).length = 2 := by decide
  have hc : ("\r\n" : String).length = 2 := by decide
  rw [encodedLine, String.length_append, String.length_append,
    String.length_append, String.length_append, ha, hb, hc]
  omega

/-- C1: `Message(target, body)` splits the body into exactly
ceil(L / (412 − 12)) PRIVMSG chunks (budget `maxMessage = 412`, overhead
`overhead = 12`), emits them front-to-back in body order, and concatenating
the chunks in emission order reconstructs the body exactly; for an empty body
no chunk is emitted. -/
theorem message_split_exact (c : Client) (target : String) (body : List Char) :
    (c.Message target body (fun _ => true)).1
        = (messageChunks body).map (fun p => (privmsg target p, true))
      ∧ (messageChunks body).length
        = (body.length + (maxMessage - overhead) - 1) / (maxMessage - overhead)
      ∧ (messageChunks body).flatten = body
      ∧ (c.Message target [] (fun _ => true)).1 = [] := by
  refine ⟨?_, ?_, messageChunks_join body, ?_⟩
  · show (messageSend target (fun _ => true) body 0).1 = _
    rw [messageSend_allOk]
  · rw [messageChunks_length]
    rfl
  · show (messageSend target (fun _ => true) [] 0).1 = []
    rw [messageSend_nil]

/-- C2 (counterexample): for a 101-byte target, `Message` emits a 400-byte
chunk whose encoded wire line `"PRIVMSG " ++ target ++ " :" ++ chunk ++
"\r\n"` is 513 bytes long, exceeding the protocol's 512-byte hard limit: the
412-byte budget in the code does not account for the target's length. -/
theorem message_line_limit_cex :
    (someClient.Message tgt101 body400 (fun _ => true)).1
        = [(privmsg tgt101 body400, true)]
      ∧ (encodedLine tgt101 (String.mk body400)).length = 513
      ∧ 512 < (encodedLine tgt101 (String.mk body400)).length := by
  have hchunks : messageChunks body400 = [body400] := by
    refine messageChunks_short body400 ?_ ?_
    · intro h
      have hlen0 : body400.length = 0 := by rw [h]; rfl
      rw [body400, List.length_replicate] at hlen0
      omega
    rw [chunkSize_eq, body400, List.length_replicate]
  have hlen : (encodedLine tgt101 (String.mk body400)).length = 513 := by
    rw [encodedLine_length]
    have h1 : tgt101.length = 101 := by
      show (List.replicate 101 'a').length = 101
      rw [List.length_replicate]
    have h2 : (String.mk body400).length = 400 := by
      show body400.length = 400
      rw [body400, List.length_replicate]
    rw [h1, h2]
  refine ⟨?_, hlen, by rw [hlen]; omega⟩
  show (messageSend tgt101 (fun _ => true) body400 0).1 = _
  rw [messageSend_allOk, hchunks]
  rfl

/-- C2 (amended): for every target of length at most 100 bytes, every chunk
emitted by `Message(target, body)` produces an encoded wire line
`"PRIVMSG " ++ target ++ " :" ++ chunk ++ "\r\n"` of at most 512 bytes (each
chunk is at most 400 bytes, so the line is at most 412 + target-length
bytes); for longer targets the limit can be exceeded. -/
theorem message_line_limit_amended (c : Client) (target : String)
    (body : List Char) (sendOk : Nat → Bool) (h : target.length ≤ 100) :
    ∀ fb ∈ (c.Message target body sendOk).1,
      ∃ piece, fb.1 = privmsg target piece
        ∧ (encodedLine target (String.mk piece)).length ≤ 512 := by
  intro fb hfb
  obtain ⟨piece, hmem, heq⟩ := messageSend_mem target sendOk body 0 fb hfb
  refine ⟨piece, heq, ?_⟩
  have hp := messageChunks_piece_le body piece hmem
  rw [chunkSize_eq] at hp
  have hl : (String.mk piece).length = piece.length := rfl
  rw [encodedLine_length, hl]
  omega

/-- Witness for C2 (amended) at a concrete short target and one-byte body. -/
theorem message_line_limit_amended_witness :
    ("x" : String).length ≤ 100
      ∧ ∀ fb ∈ (someClient.Message "x" ['a'] (fun _ => true)).1,
          ∃ piece, fb.1 = privmsg "x" piece
            ∧ (encodedLine "x" (String.mk piece)).length ≤ 512 :=
  ⟨by decide,
    message_line_limit_amended someClient "x" ['a'] (fun _ => true) (by decide)⟩

/-- C3: for a frame decoded as PING (with a first parameter), the loop step
sends exactly one PONG echoing the probe's first parameter; the send happens
before any hook invocation (the trace is the sent PONG followed by the hook
calls, and no hook action is a send); if the PONG send fails, the loop
terminates with that error. -/
theorem loop_ping_reply (c : Client) (n : Nat) (raw : String) (pr : ParseResult)
    (m : Message) (p : String) (ps : List String)
    (hm : ReadMessage raw pr = Except.ok m) (hc : m.command = "PING")
    (hp : m.params = p :: ps) :
    loopStep c n (LoopInput.line raw pr none)
        = StepOut.cont
            (Action.sent { command := "PONG", params := [p] } :: c.hooks n m) c
      ∧ (∀ e, loopStep c n (LoopInput.line raw pr (some e))
          = StepOut.stop [Action.sent { command := "PONG", params := [p] }] c
              (some e))
      ∧ (∀ e rest, Loop c n (LoopInput.line raw pr (some e) :: rest)
          = ([Action.sent { command := "PONG", params := [p] }], c,
              LoopResult.done (some e)))
      ∧ (∀ f, Action.sent f ∉ c.hooks n m) := by
  have hpong : Pong m = some { command := "PONG", params := [p] } := by
    simp [Pong, hp]
  have hne : m.command ≠ "ERROR" := by rw [hc]; decide
  refine ⟨?_, ?_, ?_, ?_⟩
  · simp [loopStep, hm, hc, hpong, hne]
  · intro e
    simp [loopStep, hm, hc, hpong]
  · intro e rest
    simp [Loop, loopStep, hm, hc, hpong]
  · intro f
    simp [Client.hooks]

/-- Witness for C3: the spec's scenario, a probe with parameter "xyz123". -/
theorem loop_ping_reply_witness :
    loopStep someClient 2
        (LoopInput.line "PING :xyz123"
          (ParseResult.ok { command := "PING", params := ["xyz123"] }) none)
      = StepOut.cont
          (Action.sent { command := "PONG", params := ["xyz123"] }
            :: someClient.hooks 2 { command := "PING", params := ["xyz123"] })
          someClient :=
  (loop_ping_reply someClient 2 "PING :xyz123"
    (ParseResult.ok { command := "PING", params := ["xyz123"] })
    { command := "PING", params := ["xyz123"] } "xyz123" [] rfl rfl rfl).1

/-- C4: for a frame decoded as ERROR, the loop closes the connection exactly
once (the trace is exactly one close action), performs no further reads (the
result does not depend on the rest of the input stream), and returns the
outcome of `Close` (error or nil) rather than a read failure. -/
theorem loop_error_close (c : Client) (n : Nat) (raw : String)
    (pr : ParseResult) (m : Message)
    (hm : ReadMessage raw pr = Except.ok m) (hc : m.command = "ERROR") :
    ∀ (pongErr : Option String) (rest : List LoopInput),
      Loop c n (LoopInput.line raw pr pongErr :: rest)
        = ([Action.closed], (c.Close).1, LoopResult.done (c.Close).2) := by
  intro pe rest
  have hne : m.command ≠ "PING" := by rw [hc]; decide
  simp [Loop, loopStep, hm, hc, hne]

/-- Witness for C4: an ERROR frame terminates the loop at once; the pending
rest of the stream (here a read failure) is never consumed. -/
theorem loop_error_close_witness :
    Loop someClient 2
        (LoopInput.line "ERROR :bye"
            (ParseResult.ok { command := "ERROR", params := ["bye"] }) none
          :: [LoopInput.readFailure "never read"])
      = ([Action.closed], (someClient.Close).1,
          LoopResult.done (someClient.Close).2) :=
  loop_error_close someClient 2 "ERROR :bye"
    (ParseResult.ok { command := "ERROR", params := ["bye"] })
    { command := "ERROR", params := ["bye"] } rfl rfl none
    [LoopInput.readFailure "never read"]

/-- C5: `Message` returns nil on every input; and if the sends of the first
`j` chunks succeed while the send of chunk `j` fails, then exactly the first
`j + 1` chunks are attempted (the earlier ones written, the failing one last,
none after it) and the result is still nil. -/
theorem message_send_error_nil (c : Client) (target : String) (body : List Char)
    (sendOk : Nat → Bool) (j : Nat)
    (h1 : ∀ i, i < j → sendOk i = true) (h2 : sendOk j = false)
    (h3 : j < (messageChunks body).length) :
    (∀ (c2 : Client) (t2 : String) (b2 : List Char) (ok2 : Nat → Bool),
        (c2.Message t2 b2 ok2).2 = none)
      ∧ (c.Message target body sendOk).1.map Prod.fst
          = ((messageChunks body).take (j + 1)).map (privmsg target)
      ∧ (c.Message target body sendOk).1.map Prod.snd
          = List.replicate j true ++ [false] := by
  have h1' : ∀ i, i < j → sendOk (0 + i) = true := by
    intro i hi
    rw [Nat.zero_add]
    exact h1 i hi
  have h2' : sendOk (0 + j) = false := by rwa [Nat.zero_add]
  obtain ⟨e1, e2⟩ := messageSend_firstFail target sendOk body 0 j h1' h2' h3
  exact ⟨fun c2 t2 b2 ok2 => messageSend_result_nil t2 ok2 b2 0, e1, e2⟩

/-- Witness for C5: a one-chunk body whose only send fails; the chunk is
attempted, marked failed, and the result is nil. -/
theorem message_send_error_nil_witness :
    (someClient.Message "t" ['a'] (fun _ => false)).1.map Prod.snd
      = List.replicate 0 true ++ [false] :=
  (message_send_error_nil someClient "t" ['a'] (fun _ => false) 0
    (fun i hi => absurd hi (Nat.not_lt_zero i)) rfl
    (by rw [messageChunks_cons]; simp)).2.2

/-- C6: a decode failure carrying the truncated sentinel is tolerated: the
partially-decoded frame is returned and dispatched to the hooks and the loop
continues; any other decode failure terminates the loop with the wrapped
error `"unable to parse message: <raw line>: <err>"`, which includes the
offending raw line. -/
theorem read_truncated_dispatch (c : Client) (n : Nat) (raw : String)
    (m : Message) (h1 : m.command ≠ "PING") (h2 : m.command ≠ "ERROR") :
    ReadMessage raw (ParseResult.truncated m) = Except.ok m
      ∧ (∀ pongErr, loopStep c n (LoopInput.line raw (ParseResult.truncated m) pongErr)
          = StepOut.cont (c.hooks n m) c)
      ∧ (∀ e, ReadMessage raw (ParseResult.failed e)
          = Except.error ("unable to parse message: " ++ raw ++ ": " ++ e))
      ∧ (∀ e pongErr rest,
          Loop c n (LoopInput.line raw (ParseResult.failed e) pongErr :: rest)
            = ([], c,
                LoopResult.done
                  (some ("unable to parse message: " ++ raw ++ ": " ++ e)))) := by
  refine ⟨rfl, ?_, fun e => rfl, ?_⟩
  · intro pe
    simp [loopStep, ReadMessage, h1, h2]
  · intro e pe rest
    simp [Loop, loopStep, ReadMessage]

/-- Witness for C6: a truncated decode of an ordinary frame is dispatched. -/
theorem read_truncated_dispatch_witness :
    loopStep someClient 2 (LoopInput.line "raw line"
        (ParseResult.truncated privFrame) none)
      = StepOut.cont (someClient.hooks 2 privFrame) someClient :=
  (read_truncated_dispatch someClient 2 "raw line" privFrame
    (by decide) (by decide)).2.1 none

/-- C7: for a decoded frame whose command is neither PING nor ERROR, the loop
step invokes every one of the `n` registered hooks exactly once, in
registration order (hook `i` is at position `i`, with no duplicates), each
receiving the client reference and the same decoded frame. -/
theorem loop_hooks_dispatch (c : Client) (n : Nat) (raw : String)
    (pr : ParseResult) (m : Message) (hm : ReadMessage raw pr = Except.ok m)
    (h1 : m.command ≠ "PING") (h2 : m.command ≠ "ERROR") :
    (∀ pongErr, loopStep c n (LoopInput.line raw pr pongErr)
        = StepOut.cont (c.hooks n m) c)
      ∧ c.hooks n m = (List.range n).map (fun i => Action.hookCalled i c m)
      ∧ (c.hooks n m).Nodup := by
  refine ⟨?_, rfl, ?_⟩
  · intro pe
    simp [loopStep, hm, h1, h2]
  · refine List.Nodup.map ?_ (List.nodup_range n)
    intro a b hab
    simpa using hab

/-- Witness for C7 at a concrete ordinary frame and two hooks. -/
theorem loop_hooks_dispatch_witness :
    loopStep someClient 2
        (LoopInput.line "raw" (ParseResult.ok privFrame) none)
      = StepOut.cont (someClient.hooks 2 privFrame) someClient :=
  (loop_hooks_dispatch someClient 2 "raw" (ParseResult.ok privFrame) privFrame
    rfl (by decide) (by decide)).1 none

/-- C8: `Register` sends NICK and then USER, in that order; if the NICK send
fails, USER is never attempted and the result is the wrapped error
`"failed to send NICK: <err>"`; if NICK succeeds and USER fails, both frames
were attempted in order and the result is `"failed to send USER: <err>"`;
if both succeed, the result is nil. -/
theorem register_nick_then_user (c : Client)
    (send : Godrop.Message → Option String) :
    (∀ e, send (nickMsg c) = some e →
        c.Register send = ([nickMsg c], some ("failed to send NICK: " ++ e)))
      ∧ (send (nickMsg c) = none → ∀ e, send (userMsg c) = some e →
          c.Register send
            = ([nickMsg c, userMsg c], some ("failed to send USER: " ++ e)))
      ∧ (send (nickMsg c) = none → send (userMsg c) = none →
          c.Register send = ([nickMsg c, userMsg c], none)) := by
  refine ⟨?_, ?_, ?_⟩
  · intro e he
    simp [Client.Register, Client.Nick, he]
  · intro hn e hu
    simp [Client.Register, Client.Nick, Client.User, hn, hu]
  · intro hn hu
    simp [Client.Register, Client.Nick, Client.User, hn, hu]

/-- Witness for C8: with a send oracle that fails exactly on NICK, `Register`
attempts only NICK and returns the wrapped NICK error. -/
theorem register_nick_then_user_witness :
    someClient.Register regSendFail
      = ([nickMsg someClient], some ("failed to send NICK: " ++ "boom")) :=
  (register_nick_then_user someClient regSendFail).1 "boom" rfl

/-- C9: `Close` is idempotent: a second `Close` (after the first has cleared
the transport handle) returns nil; `IsConnected` is false after the first and
after the second call; and every `Close` call clears the registered flag and
the buffered I/O state. -/
theorem close_idempotent (c : Client) :
    ((c.Close).1.Close).2 = none
      ∧ (c.Close).1.IsConnected = false
      ∧ (((c.Close).1.Close).1).IsConnected = false
      ∧ (c.Close).1.conn = none
      ∧ (c.Close).1.registered = false
      ∧ (c.Close).1.rw = none
      ∧ ((c.Close).1.Close).1.registered = false
      ∧ ((c.Close).1.Close).1.rw = none := by
  cases hc : c.conn <;>
    simp [Client.Close, Client.IsConnected, hc]

/-- C10: the PONG construction is well-defined exactly when the probe has at
least one parameter: for a frame with a non-empty parameter list the
`Params[0]` access is in bounds and yields the echoing reply; for an empty
parameter list the access is out of bounds (`Pong` has no value, and the
loop's PING handling panics rather than reaching any error branch). -/
theorem pong_first_param_bounds (m : Message) :
    (∀ p ps, m.params = p :: ps →
        Pong m = some { command := "PONG", params := [p] })
      ∧ (m.params = [] → Pong m = none)
      ∧ (∀ (c : Client) (n : Nat) (raw : String) (pr : ParseResult)
            (pongErr : Option String),
          ReadMessage raw pr = Except.ok m → m.command = "PING" →
            m.params = [] →
              loopStep c n (LoopInput.line raw pr pongErr)
                = StepOut.panicked [] c) := by
  refine ⟨?_, ?_, ?_⟩
  · intro p ps hp
    simp [Pong, hp]
  · intro hp
    simp [Pong, hp]
  · intro c n raw pr pe hm hc hp
    have hnone : Pong m = none := by simp [Pong, hp]
    simp [loopStep, hm, hc, hnone]

/-- Witness for C10: a PING probe with no parameters makes the `Params[0]`
access out of bounds. -/
theorem pong_first_param_bounds_witness :
    Pong { command := "PING", params := [] } = none :=
  (pong_first_param_bounds { command := "PING", params := [] }).2.1 rfl

end Godrop
